import Mathlib

set_option maxRecDepth 100000

/-!
Formal model of an exFAT image reader, translated from the TypeScript source
src/exfat.ts.  Byte buffers (Uint8Array) are lists of naturals; JavaScript
strings are lists of UTF-16 code units; JavaScript numbers that stay integral
are Int or Nat.  Possibly-diverging loops (FAT-chain walking, directory
scanning, tree recursion) take an explicit fuel argument; runtime exceptions
(DataView reads out of bounds) are modelled with Option, none standing for a
thrown error.
-/

/-- 32-bit two's-complement wrap, as JavaScript ToInt32. -/
def toInt32 (n : Int) : Int :=
  let m := n % 4294967296
  if 2147483648 ≤ m then m - 4294967296 else m

/-- The JavaScript expression 1 << s for a byte-sized shift operand
(shift count is taken mod 32, result is a signed 32-bit integer). -/
def jsShl1 (s : Nat) : Int :=
  toInt32 ((2 : Int) ^ (s % 32))

/-- Uint8Array.subarray with JavaScript index clamping: negative indices
count from the end, indices past the end clamp to the length, and an empty
slice results when the end does not exceed the start. -/
def jsSubarray (buf : List Nat) (s e : Int) : List Nat :=
  let len : Int := buf.length
  let s2 : Int := if s < 0 then max (len + s) 0 else min s len
  let e2 : Int := if e < 0 then max (len + e) 0 else min e len
  (buf.drop s2.toNat).take (e2.toNat - s2.toNat)

/-- readU32 from the source: little-endian 32-bit read (in-bounds use). -/
def readU32 (l : List Nat) (o : Nat) : Nat :=
  l.getD o 0 + 256 * l.getD (o + 1) 0 + 65536 * l.getD (o + 2) 0 +
    16777216 * l.getD (o + 3) 0

/-- readU64 from the source: hi * 2^32 + lo. -/
def readU64 (l : List Nat) (o : Nat) : Nat :=
  readU32 l o + 4294967296 * readU32 l (o + 4)

/-- DataView.getUint32 at a fixed nonnegative offset: throws (none) when the
4-byte read would pass the end of the buffer. -/
def getU32 (l : List Nat) (o : Nat) : Option Nat :=
  if o + 4 ≤ l.length then some (readU32 l o) else none

/-- Boot geometry decoded by parseBoot. -/
structure Boot where
  sectorSize : Int
  clusterSize : Int
  fatOffsetBytes : Int
  fatLengthBytes : Int
  clusterHeapOffsetBytes : Int
  clusterCount : Nat
  rootDirCluster : Nat
  deriving DecidableEq

/-- parseBoot: reads the two shift bytes at 0x6c/0x6d (an index past the end
of a Uint8Array yields undefined, which the shift coerces to 0, hence getD
with default 0) and five little-endian u32 fields at 0x50..0x60; each u32
read throws when the buffer is too short. -/
def parseBoot (buf : List Nat) : Option Boot :=
  let sectorSize := jsShl1 (buf.getD 0x6c 0)
  let clusterSize := sectorSize * jsShl1 (buf.getD 0x6d 0)
  (getU32 buf 0x50).bind fun fatOffset =>
  (getU32 buf 0x54).bind fun fatLength =>
  (getU32 buf 0x58).bind fun clusterHeapOffset =>
  (getU32 buf 0x5c).bind fun clusterCount =>
  (getU32 buf 0x60).map fun rootDirCluster =>
    ⟨sectorSize, clusterSize, (fatOffset : Int) * sectorSize,
     (fatLength : Int) * sectorSize, (clusterHeapOffset : Int) * sectorSize,
     clusterCount, rootDirCluster⟩

/-- clusterOffset from the source. -/
def clusterOffset (boot : Boot) (cluster : Nat) : Int :=
  boot.clusterHeapOffsetBytes + ((cluster : Int) - 2) * boot.clusterSize

/-- readFATNext: returns the sentinel 0xffffffff when the 4-byte FAT read
would pass the end of the image; a negative offset slips past that guard and
makes DataView.getUint32 throw (none). -/
def readFATNext (buf : List Nat) (boot : Boot) (cluster : Nat) : Option Nat :=
  let off : Int := boot.fatOffsetBytes + (cluster : Int) * 4
  if (buf.length : Int) < off + 4 then some 0xffffffff
  else if off < 0 then none
  else some (readU32 buf off.toNat)

/-- isEndOfChain from the source. -/
def isEndOfChain (v : Nat) : Bool :=
  decide (0xfffffff8 ≤ v) || v == 0xffffffff || v == 0

/-- The while loop of readChain.  Returns the list of chunks pushed, in push
order; remaining models the limitBytes countdown; fuel bounds the number of
iterations (the source has no cycle detection and can loop forever). -/
def readChainGo (buf : List Nat) (boot : Boot) :
    Nat → Nat → Option Nat → Option (List (List Nat))
  | 0, _, _ => some []
  | fuel + 1, c, remaining =>
    if 2 ≤ c ∧ c < 0x0fffffff then
      let off := clusterOffset boot c
      let slice := jsSubarray buf off (off + boot.clusterSize)
      match remaining with
      | none =>
        match readFATNext buf boot c with
        | none => none
        | some next =>
          if isEndOfChain next then some [slice]
          else (readChainGo buf boot fuel next none).map (slice :: ·)
      | some r =>
        if r = 0 then some []
        else
          let t := min slice.length r
          let piece := slice.take t
          match readFATNext buf boot c with
          | none => none
          | some next =>
            if isEndOfChain next then some [piece]
            else (readChainGo buf boot fuel next (some (r - t))).map (piece :: ·)
    else some []

/-- readChain: the chunks, concatenated (the source's single-chunk fast path
returns the same bytes as the concatenation). -/
def readChain (buf : List Nat) (boot : Boot) (startCluster : Nat)
    (limit : Option Nat) (fuel : Nat) : Option (List Nat) :=
  (readChainGo buf boot fuel startCluster limit).map List.flatten

/-- TextDecoder utf-16le, byte pairing step: little-endian pairs become code
units; a trailing lone byte becomes U+FFFD (non-fatal decoding). -/
def bytesToUnits : List Nat → List Nat
  | [] => []
  | [_] => [0xfffd]
  | lo :: hi :: rest => (lo + 256 * hi) :: bytesToUnits rest

/-- TextDecoder utf-16le, surrogate handling: a valid surrogate pair is kept,
an unpaired surrogate becomes U+FFFD. -/
def sanitizeUnits : List Nat → List Nat
  | [] => []
  | [u] => if 0xd800 ≤ u ∧ u ≤ 0xdfff then [0xfffd] else [u]
  | u :: v :: rest =>
    if 0xd800 ≤ u ∧ u ≤ 0xdbff then
      if 0xdc00 ≤ v ∧ v ≤ 0xdfff then u :: v :: sanitizeUnits rest
      else 0xfffd :: sanitizeUnits (v :: rest)
    else if 0xdc00 ≤ u ∧ u ≤ 0xdfff then 0xfffd :: sanitizeUnits (v :: rest)
    else u :: sanitizeUnits (v :: rest)

/-- TD16.decode from the source. -/
def td16Decode (bytes : List Nat) : List Nat :=
  sanitizeUnits (bytesToUnits bytes)

/-- name.replace of the trailing-NUL regular expression: drop the trailing
run of zero code units. -/
def stripTrailingNul (units : List Nat) : List Nat :=
  ((units.reverse).dropWhile (fun u => u == 0)).reverse

/-- The mutable locals of the secondary-entry loop in readDirectory. -/
structure SecState where
  name : List Nat
  firstCluster : Nat
  size : Nat
  deriving DecidableEq

/-- One iteration body of the secondary-entry loop: 0xc0 stream extension
captures firstCluster and size, 0xc1 file name appends 30 decoded bytes,
anything else is consumed and ignored. -/
def stepEntry (data : List Nat) (j : Nat) (st : SecState) : SecState :=
  let t := data.getD j 0
  if t = 0xc0 then ⟨st.name, readU32 data (j + 0x14), readU64 data (j + 0x18)⟩
  else if t = 0xc1 then
    ⟨st.name ++ td16Decode (jsSubarray data (j + 2 : Nat) (j + 32 : Nat)),
     st.firstCluster, st.size⟩
  else st

/-- The secondary-entry loop: k counts how many secondaries may still be
consumed (secondaryCount at entry); the loop also stops as soon as the next
32-byte stride would pass the end of the buffer.  Returns the final state and
the offset where scanning resumes. -/
def secLoop (data : List Nat) : Nat → Nat → SecState → SecState × Nat
  | 0, j, st => (st, j)
  | k + 1, j, st =>
    if j + 32 ≤ data.length then secLoop data k (j + 32) (stepEntry data j st)
    else (st, j)

/-- A decoded directory record. -/
structure DirEntry where
  name : List Nat
  isDir : Bool
  size : Nat
  firstCluster : Nat
  deriving DecidableEq

/-- The outer 32-byte-stride scan of readDirectory: 0x00 slots and unknown
types are skipped, a 0x85 primary begins an entry set, and one record is
emitted per primary.  The scan offset strictly grows by at least 32 per
iteration, so fuel at least length / 32 + 1 is exact. -/
def dirLoop (data : List Nat) : Nat → Nat → List DirEntry
  | 0, _ => []
  | f + 1, i =>
    if i + 32 ≤ data.length then
      let et := data.getD i 0
      if et = 0x00 then dirLoop data f (i + 32)
      else if et = 0x85 then
        let sc := data.getD (i + 1) 0
        let isDir := (data.getD (i + 4) 0 &&& 0x10) != 0
        let r := secLoop data sc (i + 32) ⟨[], 0, 0⟩
        ⟨stripTrailingNul r.1.name, isDir, r.1.size, r.1.firstCluster⟩ ::
          dirLoop data f r.2
      else dirLoop data f (i + 32)
    else []

/-- readDirectory: read the directory's cluster chain (no limit) and decode
its 32-byte entries. -/
def readDirectory (buf : List Nat) (boot : Boot) (startCluster fuel : Nat) :
    Option (List DirEntry) :=
  (readChain buf boot startCluster none fuel).map fun data => dirLoop data fuel 0

/-- JavaScript String.split on the slash character (code unit 47): always a
nonempty list of segments. -/
def jsSplitSlash : List Nat → List (List Nat)
  | [] => [[]]
  | c :: cs =>
    match jsSplitSlash cs with
    | [] => [[c]]
    | s :: ss => if c = 47 then [] :: s :: ss else (c :: s) :: ss

/-- normalizePath: split on the slash and discard empty segments. -/
def normalizePath (p : List Nat) : List (List Nat) :=
  (jsSplitSlash p).filter (fun s => !s.isEmpty)

/-- Items returned by list. -/
structure ExfatListItem where
  name : List Nat
  isDir : Bool
  size : Nat
  deriving DecidableEq

/-- Items returned by walk; for a file, read stores the pair (firstCluster,
size) that the lazy accessor closes over. -/
structure ExfatWalkItem where
  path : List Nat
  isDir : Bool
  size : Nat
  read : Option (Nat × Nat)
  deriving DecidableEq

/-- The reader's only fields: the image buffer and the parsed geometry. -/
structure ExfatReader where
  buf : List Nat
  boot : Boot
  deriving DecidableEq

/-- The constructor of ExfatReader: parseBoot on the image. -/
def mkReader (image : List Nat) : Option ExfatReader :=
  (parseBoot image).map fun b => ⟨image, b⟩

/-- The descend-then-list loop of list: a missing or non-directory segment
yields an empty list; the final directory is decoded and projected. -/
def listGo (buf : List Nat) (boot : Boot) (fuel : Nat) :
    List (List Nat) → Nat → Option (List ExfatListItem)
  | [], cluster =>
    (readDirectory buf boot cluster fuel).map fun out =>
      out.map fun e => (⟨e.name, e.isDir, e.size⟩ : ExfatListItem)
  | part :: rest, cluster =>
    (readDirectory buf boot cluster fuel).bind fun entries =>
      match entries.find? (fun e => e.isDir && e.name == part) with
      | none => some []
      | some next => listGo buf boot fuel rest next.firstCluster

/-- list(path). -/
def listOp (r : ExfatReader) (fuel : Nat) (path : List Nat) :
    Option (List ExfatListItem) :=
  listGo r.buf r.boot fuel (normalizePath path) r.boot.rootDirCluster

/-- The loop of exists: only the last segment may be a non-directory. -/
def existsGo (buf : List Nat) (boot : Boot) (fuel : Nat) :
    List (List Nat) → Nat → Option Bool
  | [], _ => some true
  | part :: rest, cluster =>
    (readDirectory buf boot cluster fuel).bind fun entries =>
      match entries.find? (fun e => e.name == part && (decide (rest = []) || e.isDir)) with
      | none => some false
      | some found => existsGo buf boot fuel rest found.firstCluster

/-- exists(path). -/
def existsOp (r : ExfatReader) (fuel : Nat) (path : List Nat) : Option Bool :=
  existsGo r.buf r.boot fuel (normalizePath path) r.boot.rootDirCluster

/-- The loop of readFile: every non-final segment must be a directory, the
final one a file, whose chain is then read bounded by its declared size.
The inner Option is the source's null. -/
def readFileGo (buf : List Nat) (boot : Boot) (fuel : Nat) :
    List (List Nat) → Nat → Option (Option (List Nat))
  | [], _ => some none
  | part :: rest, cluster =>
    (readDirectory buf boot cluster fuel).bind fun entries =>
      match entries.find? (fun e =>
          e.name == part && (if rest = [] then !e.isDir else e.isDir)) with
      | none => some none
      | some found =>
        if rest = [] then
          (readChain buf boot found.firstCluster (some found.size) fuel).map some
        else readFileGo buf boot fuel rest found.firstCluster

/-- readFile(path). -/
def readFileOp (r : ExfatReader) (fuel : Nat) (path : List Nat) :
    Option (Option (List Nat)) :=
  readFileGo r.buf r.boot fuel (normalizePath path) r.boot.rootDirCluster

/-- Observation twin of readFileGo: the same resolution loop, returning the
directory entry the final segment resolves to instead of reading its chain. -/
def readFileEntry (buf : List Nat) (boot : Boot) (fuel : Nat) :
    List (List Nat) → Nat → Option (Option DirEntry)
  | [], _ => some none
  | part :: rest, cluster =>
    (readDirectory buf boot cluster fuel).bind fun entries =>
      match entries.find? (fun e =>
          e.name == part && (if rest = [] then !e.isDir else e.isDir)) with
      | none => some none
      | some found =>
        if rest = [] then some (some found)
        else readFileEntry buf boot fuel rest found.firstCluster

/-- Path construction inside walk's visit closure. -/
def walkChildPath (currentPath name : List Nat) : List Nat :=
  if currentPath = [47] then 47 :: name else currentPath ++ 47 :: name

/-- The for-of loop inside walk's visit: a directory contributes its own item
followed immediately by its whole subtree (computed by visitFn), a file
contributes one item carrying its lazy read data. -/
def walkEntriesWith (visitFn : List Nat → Nat → Option (List ExfatWalkItem))
    (currentPath : List Nat) : List DirEntry → Option (List ExfatWalkItem)
  | [] => some []
  | e :: rest =>
    let p := walkChildPath currentPath e.name
    if e.isDir then
      (visitFn p e.firstCluster).bind fun sub =>
        (walkEntriesWith visitFn currentPath rest).map fun restItems =>
          (⟨p, true, e.size, none⟩ : ExfatWalkItem) :: (sub ++ restItems)
    else
      (walkEntriesWith visitFn currentPath rest).map fun restItems =>
        (⟨p, false, e.size, some (e.firstCluster, e.size)⟩ : ExfatWalkItem) :: restItems

/-- walk's recursive visit; depth is fuel for the recursion (the source
recurses without bound on cyclic directory structures). -/
def walkVisit (buf : List Nat) (boot : Boot) (cf : Nat) :
    Nat → List Nat → Nat → Option (List ExfatWalkItem)
  | 0, _, _ => none
  | d + 1, currentPath, c =>
    (readDirectory buf boot c cf).bind fun entries =>
      walkEntriesWith (walkVisit buf boot cf d) currentPath entries

/-- The path-resolution loop at the top of walk: inner none means the path
did not resolve to a directory (walk returns an empty list). -/
def walkResolve (buf : List Nat) (boot : Boot) (fuel : Nat) :
    List (List Nat) → Nat → Option (Option Nat)
  | [], cluster => some (some cluster)
  | part :: rest, cluster =>
    (readDirectory buf boot cluster fuel).bind fun entries =>
      match entries.find? (fun e => e.isDir && e.name == part) with
      | none => some none
      | some next => walkResolve buf boot fuel rest next.firstCluster

/-- walk(path). -/
def walkOp (r : ExfatReader) (cf d : Nat) (path : List Nat) :
    Option (List ExfatWalkItem) :=
  let parts := normalizePath path
  (walkResolve r.buf r.boot cf parts r.boot.rootDirCluster).bind fun res =>
    match res with
    | none => some []
    | some cluster =>
      let basePath := if parts = [] then [47] else 47 :: List.intercalate [47] parts
      walkVisit r.buf r.boot cf d basePath cluster

/-- Invoking a walk item's lazy read accessor: none when the item is a
directory and has no accessor. -/
def walkItemRead (buf : List Nat) (boot : Boot) (fuel : Nat)
    (it : ExfatWalkItem) : Option (Option (List Nat)) :=
  it.read.map fun cs => readChain buf boot cs.1 (some cs.2) fuel

/-- One public operation on a reader, with its fuel arguments. -/
inductive ExfatOp where
  | listQ : Nat → List Nat → ExfatOp
  | existsQ : Nat → List Nat → ExfatOp
  | readFileQ : Nat → List Nat → ExfatOp
  | walkQ : Nat → Nat → List Nat → ExfatOp
  | readItemQ : Nat → ExfatWalkItem → ExfatOp

/-- The result of one public operation. -/
inductive OpOut where
  | listR : Option (List ExfatListItem) → OpOut
  | boolR : Option Bool → OpOut
  | bytesR : Option (Option (List Nat)) → OpOut
  | walkR : Option (List ExfatWalkItem) → OpOut
  deriving DecidableEq

/-- State-threaded run of one public operation: the reader (image buffer and
geometry) is passed in and handed back.  The source methods never assign to
this.buf or this.boot — their only writes target freshly allocated local
buffers — so each operation returns the reader it received. -/
def runOp (r : ExfatReader) : ExfatOp → OpOut × ExfatReader
  | .listQ f p => (.listR (listOp r f p), r)
  | .existsQ f p => (.boolR (existsOp r f p), r)
  | .readFileQ f p => (.bytesR (readFileOp r f p), r)
  | .walkQ cf d p => (.walkR (walkOp r cf d p), r)
  | .readItemQ f it => (.bytesR (walkItemRead r.buf r.boot f it), r)

/-- Little-endian byte splitting used to build concrete test images. -/
def u32bytes (n : Nat) : List Nat :=
  [n % 256, n / 256 % 256, n / 65536 % 256, n / 16777216 % 256]

/-- Little-endian 64-bit byte splitting. -/
def u64bytes (n : Nat) : List Nat :=
  u32bytes (n % 4294967296) ++ u32bytes (n / 4294967296)

/-- A 384-byte image: sectorSize 1, clusterSize 128, FAT at byte 112, cluster
heap at byte 128, root directory in cluster 2 holding one file named a with
declared size 5 but firstCluster 0, and file payload bytes in cluster 3. -/
def img2 : List Nat :=
  List.replicate 0x50 0
    ++ u32bytes 112 ++ u32bytes 1 ++ u32bytes 128 ++ u32bytes 8 ++ u32bytes 2
    ++ List.replicate 8 0 ++ [0, 7] ++ [0, 0]
    ++ (List.replicate 8 0 ++ u32bytes 0xffffffff ++ u32bytes 0xffffffff)
    ++ ([0x85, 2, 0, 0, 0] ++ List.replicate 27 0)
    ++ ([0xc0] ++ List.replicate 19 0 ++ u32bytes 0 ++ u64bytes 5)
    ++ ([0xc1, 0, 97, 0] ++ List.replicate 28 0)
    ++ List.replicate 32 0
    ++ ([104, 101, 108, 108, 111] ++ List.replicate 123 0)

/-- The geometry img2 and img3 decode to. -/
def boot0 : Boot :=
  ⟨1, 128, 112, 1, 128, 8, 2⟩

/-- A 384-byte image with the same geometry as img2: the root directory in
cluster 2 holds one subdirectory named D (cluster 3), which holds one file
named b with size 0 and firstCluster 0. -/
def img3 : List Nat :=
  List.replicate 0x50 0
    ++ u32bytes 112 ++ u32bytes 1 ++ u32bytes 128 ++ u32bytes 8 ++ u32bytes 2
    ++ List.replicate 8 0 ++ [0, 7] ++ [0, 0]
    ++ (List.replicate 8 0 ++ u32bytes 0xffffffff ++ u32bytes 0xffffffff)
    ++ ([0x85, 2, 0, 0, 0x10] ++ List.replicate 27 0)
    ++ ([0xc0] ++ List.replicate 19 0 ++ u32bytes 3 ++ u64bytes 0)
    ++ ([0xc1, 0, 68, 0] ++ List.replicate 28 0)
    ++ List.replicate 32 0
    ++ ([0x85, 2, 0, 0, 0] ++ List.replicate 27 0)
    ++ ([0xc0] ++ List.replicate 19 0 ++ u32bytes 0 ++ u64bytes 0)
    ++ ([0xc1, 0, 98, 0] ++ List.replicate 28 0)
    ++ List.replicate 32 0

/-! ## Helper lemmas -/

theorem readChainGo_flatten_le (buf : List Nat) (boot : Boot) :
    ∀ fuel c r chunks, readChainGo buf boot fuel c (some r) = some chunks →
      chunks.flatten.length ≤ r := by
  intro fuel
  induction fuel with
  | zero =>
    intro c r chunks h
    simp only [readChainGo] at h
    cases h
    simp
  | succ f ih =>
    intro c r chunks h
    simp only [readChainGo] at h
    split at h
    · by_cases hr : r = 0
      · simp only [if_pos hr] at h
        cases h
        simp
      · simp only [if_neg hr] at h
        cases hfat : readFATNext buf boot c with
        | none => rw [hfat] at h; simp at h
        | some next =>
          rw [hfat] at h
          by_cases he : isEndOfChain next = true
          · simp only [if_pos he] at h
            cases h
            simp only [List.flatten, List.append_nil, List.length_take]
            omega
          · simp only [if_neg he] at h
            cases hrec : readChainGo buf boot f next
                (some (r - min (jsSubarray buf (clusterOffset boot c)
                  (clusterOffset boot c + boot.clusterSize)).length r)) with
            | none => rw [hrec] at h; simp at h
            | some rest =>
              rw [hrec] at h
              simp only [Option.map_some', Option.some_inj] at h
              subst h
              have hrest := ih next _ rest hrec
              simp only [List.flatten_cons, List.length_append, List.length_take]
              omega
    · cases h
      simp

theorem readChain_le (buf : List Nat) (boot : Boot) (c N fuel : Nat)
    (bs : List Nat) (h : readChain buf boot c (some N) fuel = some bs) :
    bs.length ≤ N := by
  simp only [readChain] at h
  cases hgo : readChainGo buf boot fuel c (some N) with
  | none => rw [hgo] at h; simp at h
  | some chunks =>
    rw [hgo] at h
    simp only [Option.map_some', Option.some_inj] at h
    subst h
    exact readChainGo_flatten_le buf boot fuel c N chunks hgo

theorem jsSubarray_within (buf : List Nat) (s e : Int) :
    jsSubarray buf s e <:+: buf := by
  simp only [jsSubarray]
  exact (List.take_prefix _ _).isInfix.trans (List.drop_suffix _ _).isInfix

theorem readChainGo_chunk_infix (buf : List Nat) (boot : Boot) :
    ∀ fuel c rem chunks, readChainGo buf boot fuel c rem = some chunks →
      ∀ ch ∈ chunks, ch <:+: buf := by
  intro fuel
  induction fuel with
  | zero =>
    intro c rem chunks h
    simp only [readChainGo] at h
    cases h
    simp
  | succ f ih =>
    intro c rem chunks h
    simp only [readChainGo] at h
    split at h
    · cases rem with
      | none =>
        cases hfat : readFATNext buf boot c with
        | none => rw [hfat] at h; simp at h
        | some next =>
          rw [hfat] at h
          by_cases he : isEndOfChain next = true
          · simp only [if_pos he] at h
            cases h
            intro ch hch
            simp only [List.mem_singleton] at hch
            subst hch
            exact jsSubarray_within buf _ _
          · simp only [if_neg he] at h
            cases hrec : readChainGo buf boot f next none with
            | none => rw [hrec] at h; simp at h
            | some rest =>
              rw [hrec] at h
              simp only [Option.map_some', Option.some_inj] at h
              subst h
              intro ch hch
              rcases List.mem_cons.mp hch with hh | hh
              · subst hh; exact jsSubarray_within buf _ _
              · exact ih next none rest hrec ch hh
      | some r =>
        by_cases hr : r = 0
        · simp only [if_pos hr] at h
          cases h
          simp
        · simp only [if_neg hr] at h
          cases hfat : readFATNext buf boot c with
          | none => rw [hfat] at h; simp at h
          | some next =>
            rw [hfat] at h
            by_cases he : isEndOfChain next = true
            · simp only [if_pos he] at h
              cases h
              intro ch hch
              simp only [List.mem_singleton] at hch
              subst hch
              exact ((List.take_prefix _ _).isInfix.trans (jsSubarray_within buf _ _))
            · simp only [if_neg he] at h
              cases hrec : readChainGo buf boot f next
                  (some (r - min (jsSubarray buf (clusterOffset boot c)
                    (clusterOffset boot c + boot.clusterSize)).length r)) with
              | none => rw [hrec] at h; simp at h
              | some rest =>
                rw [hrec] at h
                simp only [Option.map_some', Option.some_inj] at h
                subst h
                intro ch hch
                rcases List.mem_cons.mp hch with hh | hh
                · subst hh
                  exact ((List.take_prefix _ _).isInfix.trans (jsSubarray_within buf _ _))
                · exact ih next _ rest hrec ch hh
    · cases h
      simp

theorem readChain_zero (buf : List Nat) (boot : Boot) (c fuel : Nat) :
    readChain buf boot c (some 0) fuel = some [] := by
  cases fuel with
  | zero => simp [readChain, readChainGo]
  | succ f =>
    simp only [readChain, readChainGo]
    split
    · simp
    · simp

theorem readFileGo_resolves (buf : List Nat) (boot : Boot) (fuel : Nat) :
    ∀ parts cluster e,
      readFileEntry buf boot fuel parts cluster = some (some e) →
      readFileGo buf boot fuel parts cluster =
        (readChain buf boot e.firstCluster (some e.size) fuel).map some := by
  intro parts
  induction parts with
  | nil =>
    intro cluster e h
    simp [readFileEntry] at h
  | cons part rest ih =>
    intro cluster e h
    simp only [readFileEntry, readFileGo] at h ⊢
    cases hd : readDirectory buf boot cluster fuel with
    | none => rw [hd] at h; simp at h
    | some entries =>
      rw [hd] at h
      simp only [Option.some_bind] at h ⊢
      cases hf : entries.find? (fun e =>
          e.name == part && (if rest = [] then !e.isDir else e.isDir)) with
      | none => simp [hf] at h
      | some found =>
        simp only [hf] at h ⊢
        by_cases hr : rest = []
        · simp only [if_pos hr, Option.some_inj] at h ⊢
          cases h
          rfl
        · simp only [if_neg hr] at h ⊢
          exact ih found.firstCluster e h

theorem secLoop_oob (data : List Nat) :
    ∀ k j st, data.length < j + 32 * k →
      data.length < (secLoop data k j st).2 + 32 := by
  intro k
  induction k with
  | zero =>
    intro j st h
    simp only [secLoop]
    omega
  | succ k2 ih =>
    intro j st h
    simp only [secLoop]
    split
    · exact ih (j + 32) _ (by omega)
    · omega

theorem dirLoop_nil_oob (data : List Nat) (f j : Nat)
    (h : data.length < j + 32) : dirLoop data f j = [] := by
  cases f with
  | zero => rfl
  | succ f2 =>
    simp only [dirLoop]
    rw [if_neg (by omega)]

theorem jsSplitSlash_ne_nil : ∀ p : List Nat, jsSplitSlash p ≠ [] := by
  intro p
  cases p with
  | nil => simp [jsSplitSlash]
  | cons c cs =>
    simp only [jsSplitSlash]
    cases jsSplitSlash cs with
    | nil => simp
    | cons s ss => by_cases hc : c = 47 <;> simp [hc]

theorem jsSplitSlash_cons (c : Nat) (x : List Nat) :
    jsSplitSlash (c :: x) =
      match jsSplitSlash x with
      | [] => [[c]]
      | s :: ss => if c = 47 then [] :: s :: ss else (c :: s) :: ss := rfl

theorem jsSplitSlash_append (a b : List Nat) :
    jsSplitSlash (a ++ 47 :: b) = jsSplitSlash a ++ jsSplitSlash b := by
  induction a with
  | nil =>
    simp only [List.nil_append, jsSplitSlash_cons]
    cases hb : jsSplitSlash b with
    | nil => exact absurd hb (jsSplitSlash_ne_nil b)
    | cons s ss => simp [jsSplitSlash]
  | cons c a2 ih =>
    rw [List.cons_append, jsSplitSlash_cons, jsSplitSlash_cons, ih]
    cases ha : jsSplitSlash a2 with
    | nil => exact absurd ha (jsSplitSlash_ne_nil a2)
    | cons s ss =>
      by_cases hc : c = 47
      · simp [hc]
      · simp [hc]

theorem normalizePath_append (a b : List Nat) :
    normalizePath (a ++ 47 :: b) = normalizePath a ++ normalizePath b := by
  simp [normalizePath, jsSplitSlash_append, List.filter_append]

theorem walkEntriesWith_append
    (visitFn : List Nat → Nat → Option (List ExfatWalkItem)) (p : List Nat) :
    ∀ l1 l2, walkEntriesWith visitFn p (l1 ++ l2) =
      (walkEntriesWith visitFn p l1).bind fun a =>
        (walkEntriesWith visitFn p l2).map fun b => a ++ b := by
  intro l1
  induction l1 with
  | nil =>
    intro l2
    simp only [List.nil_append, walkEntriesWith, Option.some_bind]
    cases walkEntriesWith visitFn p l2 <;> simp
  | cons e rest ih =>
    intro l2
    simp only [List.cons_append, walkEntriesWith, List.append_eq]
    rw [ih l2]
    by_cases hdir : e.isDir = true
    · simp only [if_pos hdir]
      cases hv : visitFn (walkChildPath p e.name) e.firstCluster <;>
        cases hr : walkEntriesWith visitFn p rest <;>
          cases hl : walkEntriesWith visitFn p l2 <;>
            simp [List.append_assoc]
    · simp only [if_neg hdir]
      cases hr : walkEntriesWith visitFn p rest <;>
        cases hl : walkEntriesWith visitFn p l2 <;>
          simp [List.append_assoc]

/-! ## Claim theorems -/

/-- C1: constructing a reader fails exactly when the image is shorter than
the fixed BPB region it must read (the u32 field at 0x60 needs bytes up to
0x64); every buffer of at least 0x64 bytes constructs successfully, with no
checksum or signature validation. -/
theorem construct_fails_iff_short (image : List Nat) :
    mkReader image = none ↔ image.length < 0x64 := by
  by_cases h : 0x64 ≤ image.length
  · have c1 : 0x50 + 4 ≤ image.length := by omega
    have c2 : 0x54 + 4 ≤ image.length := by omega
    have c3 : 0x58 + 4 ≤ image.length := by omega
    have c4 : 0x5c + 4 ≤ image.length := by omega
    have c5 : 0x60 + 4 ≤ image.length := by omega
    simp [mkReader, parseBoot, getU32, c1, c2, c3, c4, c5]
  · have c5 : ¬ (0x60 + 4 ≤ image.length) := by omega
    by_cases c1 : 0x50 + 4 ≤ image.length <;>
      by_cases c2 : 0x54 + 4 ≤ image.length <;>
        by_cases c3 : 0x58 + 4 ≤ image.length <;>
          by_cases c4 : 0x5c + 4 ≤ image.length <;>
            simp [mkReader, parseBoot, getU32, c1, c2, c3, c4, c5] <;>
              omega

/-- C4: readChain with a byte limit N returns at most N bytes, whatever the
start cluster, geometry, image, and fuel: the last cluster visited is
truncated so that the limit is never exceeded. -/
theorem readChain_limit_le (buf : List Nat) (boot : Boot) (c N fuel : Nat)
    (bs : List Nat) (h : readChain buf boot c (some N) fuel = some bs) :
    bs.length ≤ N :=
  readChain_le buf boot c N fuel bs h

/-- Witness for C4 at a concrete image: a 5-byte limit on a 128-byte cluster
returns exactly the 5 limited bytes. -/
theorem readChain_limit_le_w :
    ([104, 101, 108, 108, 111] : List Nat).length ≤ 5 :=
  readChain_limit_le img2 boot0 3 5 6 [104, 101, 108, 108, 111] (by decide)

/-- C2 counterexample: on img2, cluster 4's heap offset plus clusterSize
passes the end of the image, yet readChain succeeds (no OutOfRange error is
raised anywhere in the code): subarray silently clamps the slice to the
buffer end. -/
theorem heap_overrun_no_error_cex :
    mkReader img2 = some ⟨img2, boot0⟩ ∧
    (img2.length : Int) < clusterOffset boot0 4 + boot0.clusterSize ∧
    readChain img2 boot0 4 none 5 = some [] :=
  ⟨by decide, by decide, by decide⟩

/-- C2 (amended): there is no bounds check and no OutOfRange failure; the
subarray clamps, so every chunk the chain loop collects is a contiguous
in-bounds slice of the image (possibly shorter than clusterSize or empty). -/
theorem readChain_chunks_inbounds (buf : List Nat) (boot : Boot)
    (fuel c : Nat) (rem : Option Nat) (chunks : List (List Nat))
    (h : readChainGo buf boot fuel c rem = some chunks) :
    ∀ ch ∈ chunks, ch <:+: buf :=
  readChainGo_chunk_infix buf boot fuel c rem chunks h

/-- Witness for the amended C2 at a concrete image. -/
theorem readChain_chunks_inbounds_w :
    ([104, 101, 108, 108, 111] : List Nat) <:+: img2 :=
  readChain_chunks_inbounds img2 boot0 6 3 (some 5) [[104, 101, 108, 108, 111]]
    (by decide) [104, 101, 108, 108, 111] (by decide)

/-- C3 counterexample: on img2 the path /a resolves to a file whose stream
extension declares size 5, yet readFile returns a 0-byte array (the entry's
firstCluster 0 ends the chain before any byte is collected). -/
theorem readFile_size_mismatch_cex :
    mkReader img2 = some ⟨img2, boot0⟩ ∧
    readFileEntry img2 boot0 6 (normalizePath [47, 97]) 2 =
      some (some ⟨[97], false, 5, 0⟩) ∧
    readFileOp ⟨img2, boot0⟩ 6 [47, 97] = some (some []) ∧
    (0 : Nat) ≠ 5 :=
  ⟨by decide, by decide, by decide, by decide⟩

/-- C3 (amended): on a path that resolves to a file, readFile returns at
most the size declared in the stream extension record; it returns exactly
that many bytes only when the cluster chain supplies them. -/
theorem readFile_len_le_declared (buf : List Nat) (boot : Boot) (fuel : Nat)
    (parts : List (List Nat)) (cluster : Nat) (e : DirEntry) (bs : List Nat)
    (he : readFileEntry buf boot fuel parts cluster = some (some e))
    (hr : readFileGo buf boot fuel parts cluster = some (some bs)) :
    bs.length ≤ e.size := by
  rw [readFileGo_resolves buf boot fuel parts cluster e he] at hr
  cases hc : readChain buf boot e.firstCluster (some e.size) fuel with
  | none => rw [hc] at hr; simp at hr
  | some bs2 =>
    rw [hc] at hr
    simp only [Option.map_some', Option.some_inj] at hr
    subst hr
    exact readChain_le buf boot e.firstCluster e.size fuel bs2 hc

/-- Witness for the amended C3 at a concrete image. -/
theorem readFile_len_le_declared_w :
    (List.length ([] : List Nat)) ≤ 5 :=
  readFile_len_le_declared img2 boot0 6 [[97]] 2 ⟨[97], false, 5, 0⟩ []
    (by decide) (by decide)

/-- C9: when the path normalizes to no segments, exists returns true for
every reader, without ever reading the root directory: the geometry,
including rootDirCluster, is arbitrary here. -/
theorem exists_empty_parts_true (r : ExfatReader) (fuel : Nat) (p : List Nat)
    (h : normalizePath p = []) : existsOp r fuel p = some true := by
  simp only [existsOp, h, existsGo]

/-- Witness for C9: an empty image whose geometry points the root directory
at the out-of-range cluster index 0xffffffff still answers true for //. -/
theorem exists_empty_parts_true_w :
    existsOp ⟨[], ⟨1, 1, 0, 0, 0, 0, 4294967295⟩⟩ 3 [47, 47] = some true :=
  exists_empty_parts_true ⟨[], ⟨1, 1, 0, 0, 0, 0, 4294967295⟩⟩ 3 [47, 47]
    (by decide)

/-- C10: a path resolving to a file record of declared size 0 makes readFile
return the empty byte array, whatever the record's firstCluster. -/
theorem readFile_zero_size_empty (buf : List Nat) (boot : Boot) (fuel : Nat)
    (parts : List (List Nat)) (cluster : Nat) (e : DirEntry)
    (he : readFileEntry buf boot fuel parts cluster = some (some e))
    (hz : e.size = 0) :
    readFileGo buf boot fuel parts cluster = some (some []) := by
  rw [readFileGo_resolves buf boot fuel parts cluster e he, hz, readChain_zero]
  rfl

/-- Witness for C10 on img3: /D/b has size 0 and firstCluster 0 and reads
back empty. -/
theorem readFile_zero_size_empty_w :
    readFileGo img3 boot0 6 [[68], [98]] 2 = some (some []) :=
  readFile_zero_size_empty img3 boot0 6 [[68], [98]] 2 ⟨[98], false, 0, 0⟩
    (by decide) (by decide)

/-- C5: walk emits in depth-first pre-order.  Splitting any directory's
entry list around a subdirectory entry e, the produced sequence is exactly
the items of the earlier entries, then e's own item, then immediately all
items of e's subtree, then the items of the later entries: a directory's
item strictly precedes every item of its descendants. -/
theorem walk_preorder_decomp (buf : List Nat) (boot : Boot) (cf d : Nat)
    (p : List Nat) (pre post : List DirEntry) (e : DirEntry)
    (hdir : e.isDir = true) :
    walkEntriesWith (walkVisit buf boot cf d) p (pre ++ e :: post) =
      (walkEntriesWith (walkVisit buf boot cf d) p pre).bind fun preOut =>
        (walkVisit buf boot cf d (walkChildPath p e.name) e.firstCluster).bind
          fun subOut =>
            (walkEntriesWith (walkVisit buf boot cf d) p post).map fun postOut =>
              preOut ++
                ((⟨walkChildPath p e.name, true, e.size, none⟩ : ExfatWalkItem)
                  :: subOut) ++ postOut := by
  rw [walkEntriesWith_append]
  simp only [walkEntriesWith, if_pos hdir]
  cases hpre : walkEntriesWith (walkVisit buf boot cf d) p pre <;>
    cases hsub : walkVisit buf boot cf d (walkChildPath p e.name) e.firstCluster <;>
      cases hpost : walkEntriesWith (walkVisit buf boot cf d) p post <;>
        simp [List.append_assoc]

/-- Witness for C5 on img3: the subdirectory D's item comes first, its
subtree item /D/b immediately after. -/
theorem walk_preorder_decomp_w :
    walkEntriesWith (walkVisit img3 boot0 6 4) [47]
        ([] ++ (⟨[68], true, 0, 3⟩ : DirEntry) :: []) =
      some [⟨[47, 68], true, 0, none⟩,
            ⟨[47, 68, 47, 98], false, 0, some (0, 0)⟩] :=
  (walk_preorder_decomp img3 boot0 6 4 [47] [] [] ⟨[68], true, 0, 3⟩
    (by decide)).trans (by decide)

/-- C6: when a 0x85 primary entry at offset i declares more secondaries than
fit before the end of the directory bytes, the decoder still emits exactly
one record, built from whatever the in-bounds secondaries provided, and the
scan ends there. -/
theorem truncated_entrySet_record (data : List Nat) (f i : Nat)
    (h1 : i + 32 ≤ data.length) (h2 : data.getD i 0 = 0x85)
    (h3 : data.length < i + 32 + 32 * data.getD (i + 1) 0) :
    dirLoop data (f + 1) i =
      [⟨stripTrailingNul
          (secLoop data (data.getD (i + 1) 0) (i + 32) ⟨[], 0, 0⟩).1.name,
        (data.getD (i + 4) 0 &&& 0x10) != 0,
        (secLoop data (data.getD (i + 1) 0) (i + 32) ⟨[], 0, 0⟩).1.size,
        (secLoop data (data.getD (i + 1) 0) (i + 32) ⟨[], 0, 0⟩).1.firstCluster⟩] := by
  have hoob :=
    secLoop_oob data (data.getD (i + 1) 0) (i + 32) ⟨[], 0, 0⟩ (by omega)
  simp only [dirLoop]
  rw [if_pos h1, h2]
  rw [if_neg (by decide : ¬ (0x85 : Nat) = 0x00)]
  rw [if_pos (rfl : (0x85 : Nat) = 0x85)]
  rw [dirLoop_nil_oob data f _ hoob]

/-- Witness for C6: a 64-byte buffer whose primary declares 5 secondaries
but holds only one (a file-name entry) still yields one record named a. -/
theorem truncated_entrySet_record_w :
    dirLoop (([0x85, 5, 0, 0, 0] ++ List.replicate 27 0) ++
      ([0xc1, 0, 97, 0] ++ List.replicate 28 0)) 1 0 =
      [⟨[97], false, 0, 0⟩] :=
  (truncated_entrySet_record
    (([0x85, 5, 0, 0, 0] ++ List.replicate 27 0) ++
      ([0xc1, 0, 97, 0] ++ List.replicate 28 0)) 0 0
    (by decide) (by decide) (by decide)).trans (by decide)

/-- C7: every public operation factors through normalizePath, so any two
paths with the same nonempty segments get identical results; and inserting
a leading, trailing, or duplicated slash never changes the segments. -/
theorem ops_normalize_invariant (r : ExfatReader) (cf d : Nat)
    (p q a b : List Nat) :
    (normalizePath p = normalizePath q →
      listOp r cf p = listOp r cf q ∧
      existsOp r cf p = existsOp r cf q ∧
      readFileOp r cf p = readFileOp r cf q ∧
      walkOp r cf d p = walkOp r cf d q) ∧
    normalizePath (47 :: p) = normalizePath p ∧
    normalizePath (p ++ [47]) = normalizePath p ∧
    normalizePath (a ++ 47 :: b) = normalizePath (a ++ 47 :: 47 :: b) := by
  have hnil : normalizePath [] = [] := by decide
  constructor
  · intro h
    refine ⟨?_, ?_, ?_, ?_⟩
    · simp only [listOp, h]
    · simp only [existsOp, h]
    · simp only [readFileOp, h]
    · simp only [walkOp, h]
  · refine ⟨?_, ?_, ?_⟩
    · rw [show (47 :: p) = [] ++ 47 :: p from rfl, normalizePath_append, hnil,
        List.nil_append]
    · rw [show p ++ [47] = p ++ 47 :: [] from rfl, normalizePath_append, hnil,
        List.append_nil]
    · rw [normalizePath_append, normalizePath_append,
        show (47 :: b) = [] ++ 47 :: b from rfl, normalizePath_append, hnil,
        List.nil_append]

/-- Witness for C7 on img3: /D/ and D list identically. -/
theorem ops_normalize_invariant_w :
    listOp ⟨img3, boot0⟩ 6 [47, 68, 47] = listOp ⟨img3, boot0⟩ 6 [68] :=
  ((ops_normalize_invariant ⟨img3, boot0⟩ 6 4 [47, 68, 47] [68] [] []).1
    (by decide)).1

/-- C8: operations are pure reads of the immutable image: running any public
operation hands back the reader (image buffer and geometry) unchanged, and
the result of any operation is unaffected by any operation run before it; in
particular two successive readFile calls return byte-identical results. -/
theorem ops_pure_deterministic (r : ExfatReader) (op op2 : ExfatOp) :
    (runOp r op).2 = r ∧
    (runOp ((runOp r op2).2) op).1 = (runOp r op).1 := by
  cases op <;> cases op2 <;> exact ⟨rfl, rfl⟩
